import Mathlib

/-!
SheetFlow — verification of the spreadsheet-conversion core.

Shallow embedding, in Lean 4, of the parts of the `kcoder666/sheetflow`
repository that the specification's claims are about:

* the CSV cell escaping rule and the CSV line parser
  (`escapeCSVCell` in `src/lib/excelWorker.js`, the identical inline
  serializer in `src/lib/excelWorkerThread.js`, and
  `StreamingFileReader.parseCsvLine` in `src/lib/streamingReader.js`);
* the row/size-limited CSV writer
  (`ExcelProcessor.writeCSVWithSplitting`, `writeCSVSingle`,
  `getChunkFilePath` in `src/lib/excelWorkerThread.js`);
* the per-worksheet conversion entry points
  (`ExcelProcessor.convertWithXLSX` / `convertWithExcelJS` in
  `src/lib/excelWorkerThread.js`);
* the multi-worksheet `convert-file` IPC handler
  (`src/lib/ipcHandlers.js`, identical accumulation logic in the
  handler variant that drives the background worker);
* the streaming paginated reader
  (`StreamingFileReader.readCsvPage`, `readExcelPage`,
  `analyzeCsvFile` row counting);
* the worksheet complexity classification and the progress-event
  sequence of the analysis job (`ExcelProcessor.analyzeWorksheets`,
  `processWorksheets`, `validateFile`, `process`).

JavaScript strings are modelled as `List Char` (`Str`); a JavaScript
cell value that may be `undefined`/`null` is an `Option Str` (`none`
models absent). Machine-level byte lengths of UTF-8 strings are
modelled by character counts; no claim depends on multi-byte widths.
-/

set_option maxRecDepth 4000

/-- JavaScript strings, modelled as lists of characters. -/
abbrev Str := List Char

/-- A JavaScript cell value: `none` models `undefined`/`null`. -/
abbrev Cell := Option Str

/-- The string content of a cell: `String(cell || '')` — an absent cell
reads as the empty string. -/
def cellStr (c : Cell) : Str := c.getD []

/-- Models `cellStr.includes(',') || cellStr.includes('"') || cellStr.includes('\n')`:
whether a cell needs quoting (excelWorker.js line 573 / excelWorkerThread.js
lines 407, 445). -/
def hasSpecial (s : Str) : Bool :=
  s.any (fun c => c == ',' || c == '"' || c == '\n')

/-- Models `cellStr.replace(/"/g, '""')`: double every internal quote. -/
def doubleQuotes : Str → Str
  | [] => []
  | c :: rest => if c = '"' then '"' :: '"' :: doubleQuotes rest else c :: doubleQuotes rest

/-- Models `escapeCSVCell` (excelWorker.js lines 571–577): quote-wrap with internal
quotes doubled when the cell contains a comma, a double quote or a newline,
otherwise emit verbatim; an absent cell serializes to the empty string.
The inline serializer of `excelWorkerThread.js` (lines 406–411 and 444–449)
computes the same function on this cell model: on a string cell both first
check the same three special characters, and a non-string/absent cell is
emitted as `cell || ''`. -/
def escapeCSVCell (cell : Cell) : Str :=
  let s := cellStr cell
  if hasSpecial s then '"' :: (doubleQuotes s ++ ['"']) else s

/-- Models `row.map(escapeCSVCell).join(',')` — the comma join. -/
def joinComma : List Str → Str
  | [] => []
  | [f] => f
  | f :: fs => f ++ ',' :: joinComma fs

/-- Serialize one row of cells to a CSV line (the `.map(...).join(',')`
expression of the writers). -/
def serializeRow (row : List Cell) : Str :=
  joinComma (row.map escapeCSVCell)

/-- The character-by-character loop of `StreamingFileReader.parseCsvLine`
(streamingReader part of `src/unnamed/part_004`, lines 1080–1114), as a
structural recursion over the remaining characters. State: accumulated
`current` field and the `inQuotes` flag. -/
def parseCsvLineAux : List Char → Str → Bool → List Str
  | [], current, _ => [current]
  | '"' :: '"' :: rest2, current, true => parseCsvLineAux rest2 (current ++ ['"']) true
  | '"' :: rest, current, true => parseCsvLineAux rest current false
  | '"' :: rest, current, false => parseCsvLineAux rest current true
  | ',' :: rest, current, false => current :: parseCsvLineAux rest [] false
  | c :: rest, current, inQuotes => parseCsvLineAux rest (current ++ [c]) inQuotes

/-- Models `StreamingFileReader.parseCsvLine(line)`: split a CSV line into fields,
handling quotes and doubled-quote escapes. -/
def parseCsvLine (line : Str) : List Str :=
  parseCsvLineAux line [] false

/-! ## Row-limited / size-limited Writer (`excelWorkerThread.js`) -/

/-- An output file path, kept in the decomposed form `dir/(base)(ext)` that
`getChunkFilePath` (excelWorkerThread.js lines 502–508) computes with
`path.dirname` / `path.basename(p, ext)` / `path.extname`. The `convert-file`
handler always constructs the worker's `outputPath` as
`path.join(outputDir, baseName + '_' + sheetName + '.csv')`, so the
decomposition is exact for every path the writer receives. -/
structure OutPath where
  dir : String
  base : String
  ext : String
deriving DecidableEq, Repr

/-- Models `getChunkFilePath(originalPath, index)`: insert `_part<index>` between the
base name and the extension. -/
def getChunkFilePath (p : OutPath) (index : Nat) : OutPath :=
  { p with base := p.base ++ "_part" ++ toString index }

/-- One entry of the writer's `files` list: `{ path, rows }`. -/
structure FileRec where
  path : OutPath
  rows : Nat
deriving DecidableEq, Repr

/-- A conversion result `{ totalRows, files }`. -/
structure ConvResult where
  totalRows : Nat
  files : List FileRec
deriving DecidableEq, Repr

/-- JavaScript truthiness of an optional numeric option (`maxRows && …`):
absent or zero is falsy. -/
def truthy : Option Nat → Bool
  | none => false
  | some m => decide (m ≠ 0)

/-- Models `maxFileSize ? maxFileSize * 1024 * 1024 : null` (excelWorkerThread.js
line 438), with the JavaScript falsiness of `0` made explicit. -/
def normSizeBytes : Option Nat → Option Nat
  | some m => if m = 0 then none else some (m * 1024 * 1024)
  | none => none

/-- Models `maxRows && currentRows.length >= maxRows` (line 454). -/
def wouldExceedRowsB (maxRows : Option Nat) (curLen : Nat) : Bool :=
  match maxRows with
  | none => false
  | some m => decide (m ≠ 0) && decide (m ≤ curLen)

/-- Models `maxSizeBytes && (currentSize + rowSize) > maxSizeBytes` (line 455). -/
def wouldExceedSizeB (maxSizeBytes : Option Nat) (currentSize rowSize : Nat) : Bool :=
  match maxSizeBytes with
  | none => false
  | some mb => decide (mb < currentSize + rowSize)

/-- Path used by the final flush (line 481): the plain `outputPath` when no
chunk was flushed before (`fileIndex === 1`), a `_part` chunk path otherwise. -/
def chunkOrFinalPath (outputPath : OutPath) (fileIndex : Nat) : OutPath :=
  if fileIndex = 1 then outputPath else getChunkFilePath outputPath fileIndex

/-- The row loop of `writeCSVWithSplitting` (excelWorkerThread.js lines
442–489) over already-serialized CSV rows. State: the 1-based `fileIndex`,
the accumulated `currentRows`, and the accumulated `currentSize` in bytes
(`Buffer.byteLength(csvRow + '\n')`, modelled as `csvRow.length + 1`).
Before appending a row, if a limit would be exceeded and the accumulator is
non-empty, the accumulator is flushed to `getChunkFilePath(outputPath,
fileIndex)`; the final flush writes the plain `outputPath` iff no chunk was
flushed before it. -/
def splitAux (outputPath : OutPath) (maxRows maxSizeBytes : Option Nat) :
    List Str → Nat → List Str → Nat → List FileRec
  | [], fileIndex, currentRows, _ =>
    if currentRows = [] then []
    else [⟨chunkOrFinalPath outputPath fileIndex, currentRows.length⟩]
  | csvRow :: rest, fileIndex, currentRows, currentSize =>
    let rowSize := csvRow.length + 1
    if currentRows ≠ [] ∧
        (wouldExceedRowsB maxRows currentRows.length
          || wouldExceedSizeB maxSizeBytes currentSize rowSize) = true then
      ⟨getChunkFilePath outputPath fileIndex, currentRows.length⟩ ::
        splitAux outputPath maxRows maxSizeBytes rest (fileIndex + 1) [csvRow] rowSize
    else
      splitAux outputPath maxRows maxSizeBytes rest fileIndex
        (currentRows ++ [csvRow]) (currentSize + rowSize)

/-- Models `ExcelProcessor.writeCSVWithSplitting(rows, outputPath, maxRows,
maxFileSize)` (excelWorkerThread.js lines 430–497). -/
def writeCSVWithSplitting (rows : List (List Cell)) (outputPath : OutPath)
    (maxRows maxFileSize : Option Nat) : ConvResult :=
  { totalRows := rows.length,
    files := splitAux outputPath maxRows (normSizeBytes maxFileSize)
      (rows.map serializeRow) 1 [] 0 }

/-- Models `ExcelProcessor.writeCSVSingle(rows, outputPath)` (lines 400–425): one
file holding every row. -/
def writeCSVSingle (rows : List (List Cell)) (outputPath : OutPath) : ConvResult :=
  { totalRows := rows.length, files := [⟨outputPath, rows.length⟩] }

/-- Models `row.some(cell => cell !== null && cell !== undefined && cell !== '')`
(excelWorkerThread.js lines 341–343 and 383–385, converter.js lines 245–247):
a row has content iff some cell is a present, non-empty string. Note: no
trimming is applied. -/
def rowHasContent (row : List Cell) : Bool :=
  row.any (fun cell => match cell with
    | some (_ :: _) => true
    | _ => false)

/-- Models `ExcelProcessor.convertWithXLSX` after `sheet_to_json` (excelWorkerThread.js
lines 324–357), starting from the extracted `data` grid: error when the sheet
has no rows, drop rows without content, error when nothing remains, then write
with splitting iff a row or size limit is set (JavaScript truthiness). -/
def convertWithXLSX (data : List (List Cell)) (outputPath : OutPath)
    (maxRows maxFileSize : Option Nat) : Except String ConvResult :=
  if data.length = 0 then .error "No data found in worksheet"
  else
    let nonEmptyRows := data.filter rowHasContent
    if nonEmptyRows.length = 0 then .error "No non-empty rows found"
    else if truthy maxRows || truthy maxFileSize then
      .ok (writeCSVWithSplitting nonEmptyRows outputPath maxRows maxFileSize)
    else
      .ok (writeCSVSingle nonEmptyRows outputPath)

/-- Models `ExcelProcessor.convertWithExcelJS` after row collection
(excelWorkerThread.js lines 362–395), starting from the collected `rows`:
error when no rows were collected, drop rows without content, then — with no
emptiness check after filtering — write with splitting iff a limit is set. -/
def convertWithExcelJS (rows : List (List Cell)) (outputPath : OutPath)
    (maxRows maxFileSize : Option Nat) : Except String ConvResult :=
  if rows.length = 0 then .error "No data found in worksheet"
  else
    let nonEmptyRows := rows.filter rowHasContent
    if truthy maxRows || truthy maxFileSize then
      .ok (writeCSVWithSplitting nonEmptyRows outputPath maxRows maxFileSize)
    else
      .ok (writeCSVSingle nonEmptyRows outputPath)

/-! ## The `convert-file` IPC handler (`ipcHandlers.js` lines 132–225, and the
identical accumulation logic of the background-worker variant) -/

/-- The handler's response object. -/
structure ConvertResponse where
  success : Bool
  totalRows : Nat
  files : List FileRec
  errors : Option (List String)
  error : Option String
deriving DecidableEq, Repr

/-- The `for (const sheetName of validatedWorksheets)` loop: each worksheet's
conversion outcome either appends its files and row count, or appends one
error message; a failure never stops the loop. -/
def handlerLoop : List (Except String ConvResult) → List FileRec → Nat → List String →
    List FileRec × Nat × List String
  | [], files, total, errs => (files, total, errs)
  | Except.ok r :: rest, files, total, errs =>
    handlerLoop rest (files ++ r.files) (total + r.totalRows) errs
  | Except.error e :: rest, files, total, errs =>
    handlerLoop rest files total (errs ++ [e])

/-- The `convert-file` handler's result assembly (ipcHandlers.js lines
175–225): run every worksheet, then throw — caught as `{success: false,
error}` — iff errors occurred and no file was created; otherwise report
`success: true` with the accumulated totals and a non-null `errors` list
exactly when some worksheet failed. The per-worksheet conversions are the
input, each given as its result or its error message. -/
def convertFileHandler (outcomes : List (Except String ConvResult)) : ConvertResponse :=
  let acc := handlerLoop outcomes [] 0 []
  let files := acc.1
  let total := acc.2.1
  let errs := acc.2.2
  if errs ≠ [] ∧ files = [] then
    { success := false, totalRows := 0, files := [], errors := none,
      error := some "All worksheets failed to convert" }
  else
    { success := true, totalRows := total, files := files,
      errors := if errs = [] then none else some errs, error := none }

/-- The error messages among a list of worksheet outcomes, in order. -/
def errsOf : List (Except String ConvResult) → List String
  | [] => []
  | Except.error e :: rest => e :: errsOf rest
  | Except.ok _ :: rest => errsOf rest

/-- The successful results among a list of worksheet outcomes, in order. -/
def okResults : List (Except String ConvResult) → List ConvResult
  | [] => []
  | Except.ok r :: rest => r :: okResults rest
  | Except.error _ :: rest => okResults rest

/-- All files accumulated from the successful outcomes, in order. -/
def okFiles : List (Except String ConvResult) → List FileRec
  | [] => []
  | Except.ok r :: rest => r.files ++ okFiles rest
  | Except.error _ :: rest => okFiles rest

/-- The row total accumulated from the successful outcomes. -/
def okTotal : List (Except String ConvResult) → Nat
  | [] => 0
  | Except.ok r :: rest => r.totalRows + okTotal rest
  | Except.error _ :: rest => okTotal rest

/-- Whether an outcome is a failure. -/
def isErr (o : Except String ConvResult) : Bool :=
  match o with
  | Except.error _ => true
  | Except.ok _ => false

/-! ## Worksheet complexity (`ExcelProcessor.analyzeWorksheets`, lines 227/241) -/

inductive Complexity where
  | small
  | medium
  | large
deriving DecidableEq, Repr

/-- Models `estimatedRows > 10000 ? 'large' : estimatedRows > 1000 ? 'medium' :
'small'` (excelWorkerThread.js lines 227 and 241). -/
def complexity (estimatedRows : Nat) : Complexity :=
  if estimatedRows > 10000 then .large
  else if estimatedRows > 1000 then .medium
  else .small

/-! ## Streaming paginated reader (`StreamingFileReader`) -/

/-- One returned page row: `{ rowNumber, data }`, with `data` the values in
column order (`rowData[col.name] = values[index] || ''`). -/
structure PageRow where
  rowNumber : Nat
  data : List Str
deriving DecidableEq, Repr

/-- A page result `{ rows, startRow, endRow, totalRows, hasMore }`. `endRow`
is an integer because `startRow + foundRows - 1` can be `-1`. -/
structure Page where
  rows : List PageRow
  startRow : Nat
  endRow : Int
  totalRows : Nat
  hasMore : Bool
deriving DecidableEq, Repr

/-- Models `this.columns.forEach((col, index) => rowData[col.name] = values[index]
|| '')`: the data of one page row, one value per session column, missing
values read as the empty string. -/
def rowDataFrom (numCols : Nat) (values : List Str) : List Str :=
  (List.range numCols).map (fun i => values.getD i [])

/-- The `readline` loop of `StreamingFileReader.readCsvPage` (part_004 lines
979–1012). `currentRow` is the 0-based index of the incoming line (the
JavaScript variable after its `++`); line 0 is the header and is skipped;
each later line has `dataRow = currentRow - 1`, is parsed and collected when
`dataRow >= startRow && foundRows < pageSize`, and the stream is closed as
soon as `foundRows >= pageSize`. Returns the collected rows and the final
`foundRows` counter. -/
def readCsvAux (startRow pageSize numCols : Nat) :
    List Str → Nat → Nat → List PageRow × Nat
  | [], _, found => ([], found)
  | line :: rest, currentRow, found =>
    if currentRow = 0 then readCsvAux startRow pageSize numCols rest 1 found
    else
      let dataRow := currentRow - 1
      if startRow ≤ dataRow ∧ found < pageSize then
        let row : PageRow := ⟨dataRow + 1, rowDataFrom numCols (parseCsvLine line)⟩
        if pageSize ≤ found + 1 then ([row], found + 1)
        else
          let r := readCsvAux startRow pageSize numCols rest (currentRow + 1) (found + 1)
          (row :: r.1, r.2)
      else if pageSize ≤ found then ([], found)
      else readCsvAux startRow pageSize numCols rest (currentRow + 1) found

/-- Models `StreamingFileReader.readCsvPage(startRow, pageSize)` (part_004 lines
967–1028) over the file's lines. The session state enters as `numCols` (the
column descriptors from initialization) and `totalRows`. -/
def readCsvPage (lines : List Str) (numCols totalRows startRow pageSize : Nat) : Page :=
  let r := readCsvAux startRow pageSize numCols lines 0 0
  { rows := r.1, startRow := startRow, endRow := (startRow : Int) + r.2 - 1,
    totalRows := totalRows, hasMore := decide (startRow + r.2 < totalRows) }

/-- The row count computed by `StreamingFileReader.analyzeCsvFile` (part_004
lines 766–813): the number of lines minus the header row, clamped at zero
(`Math.max(0, rowCount - 1)`). -/
def analyzeCsvTotalRows (lines : List Str) : Nat := lines.length - 1

/-- Models `StreamingFileReader.readExcelPage(startRow, pageSize)` (part_004 lines
1033–1075). The worksheet is the cell grid of the currently selected sheet
(absolute row/column indexing, `none` for an absent cell), `srOffset` is
`range.s.r`, `colIdxs` the session columns' `index` fields, `totalRows` the
session row count. Rows `startRow ≤ row < min(startRow + pageSize,
totalRows)` are read at sheet row `row + srOffset + 1` (skipping the header
row); `hasMore` is `endRow < totalRows`. -/
def readExcelPage (grid : List (List Cell)) (srOffset : Nat) (colIdxs : List Nat)
    (totalRows startRow pageSize : Nat) : Page :=
  let endRow := min (startRow + pageSize) totalRows
  let rows := (List.range' startRow (endRow - startRow)).map (fun row =>
    { rowNumber := row + 1,
      data := colIdxs.map (fun c => cellStr ((grid.getD (row + srOffset + 1) []).getD c none)) })
  { rows := rows, startRow := startRow, endRow := (endRow : Int) - 1,
    totalRows := totalRows, hasMore := decide (endRow < totalRows) }

/-! ## Progress events of the analysis job (`ExcelProcessor`, worker thread) -/

/-- Percent values sent by `validateFile` (excelWorkerThread.js lines 85–108),
in emission order. -/
def validateFileTrace : List Nat := [5, 10]

/-- Percent values sent by `processWorksheets` on the successful XLSX path
(lines 113–145), in emission order. -/
def processWorksheetsXlsxTrace : List Nat := [20, 30, 60, 80, 100]

/-- Percent values sent by `analyzeWorksheets` when a workbook is present
(line 209), in emission order. -/
def analyzeWorksheetsTrace : List Nat := [85]

/-- The full progress-percent sequence of a successful `getWorksheets` job
(`process`, lines 513–536): the initial 0, file validation, worksheet
extraction via XLSX, then complexity analysis. -/
def getWorksheetsJobTrace : List Nat :=
  [0] ++ validateFileTrace ++ processWorksheetsXlsxTrace ++ analyzeWorksheetsTrace

/-- Executable check that a percent sequence is monotonically
non-decreasing. -/
def nonDecreasing : List Nat → Bool
  | [] => true
  | [_] => true
  | a :: b :: rest => decide (a ≤ b) && nonDecreasing (b :: rest)

/-! ## Concrete inputs used by counterexamples, witnesses and scenarios -/

/-- Concrete row used to witness the round trip: a cell with a comma, a cell
with quotes, a cell with a newline, and an absent cell. -/
def rtRow : List Cell :=
  [some ['a', ',', 'b'], some ['s', '"', 'h', 'i', '"'], some ['l', '\n', '2'], none]

/-- A concrete output path `out/wb_Sheet1.csv`. -/
def wPath : OutPath := { dir := "out", base := "wb_Sheet1", ext := ".csv" }

/-- Five one-cell rows, for the splitting witness. -/
def wRows5 : List (List Cell) := List.replicate 5 [some ['x']]

/-- Two one-cell rows, for the naming counterexample. -/
def wRows2 : List (List Cell) := [[some ['a']], [some ['b']]]

/-- Three one-cell rows, for the naming witness. -/
def wRows3 : List (List Cell) := [[some ['a']], [some ['b']], [some ['c']]]

/-- A row whose single cell is one space: non-empty as a string, empty after
trimming. -/
def spaceRow : List Cell := [some [' ']]

/-- A row whose single cell is the empty string: dropped by the content
filter. -/
def blankRow : List Cell := [some []]

/-- Outcome list for the C2 counterexample: a worksheet that succeeded with
zero files (reachable through `convertWithExcelJS` with a row limit on a
worksheet whose rows are all empty after filtering), then a failed one. -/
def cexOutcomes : List (Except String ConvResult) :=
  [Except.ok ⟨0, []⟩, Except.error "Sheet2: boom"]

/-- Outcome list for the C2 witness: one worksheet succeeded with one file of
three rows, one failed. -/
def witOutcomes : List (Except String ConvResult) :=
  [Except.ok ⟨3, [⟨wPath, 3⟩]⟩, Except.error "Sheet2: failed"]

/-- The header line `a,b,c` of the 50-row scenario file. -/
def csvHeader : Str := ['a', ',', 'b', ',', 'c']

/-- One data line `x,y,z` of the 50-row scenario file. -/
def csvDataLine : Str := ['x', ',', 'y', ',', 'z']

/-- The scenario file: a 3-column header followed by 50 data rows. -/
def csvFile50 : List Str := csvHeader :: List.replicate 50 csvDataLine

/-- A data line with an unbalanced quote, the claim's example of a malformed
CSV line. -/
def malformedLine : Str := ['"', 'a', ',', 'b']

/-- A two-line file whose single data line is malformed. -/
def malformedFile : List Str := [csvHeader, malformedLine]

/-- A 3×2 sheet grid (header plus two data rows) for the Excel page witness. -/
def wGrid : List (List Cell) :=
  [[some ['h', '1'], some ['h', '2']],
   [some ['a'], some ['b']],
   [some ['c'], some ['d']]]

/-! ## Theorems: CSV escape/parse layer -/

theorem pa_nil (cur : Str) (b : Bool) : parseCsvLineAux [] cur b = [cur] := rfl

theorem pa_qq (rest : List Char) (cur : Str) :
    parseCsvLineAux ('"' :: '"' :: rest) cur true = parseCsvLineAux rest (cur ++ ['"']) true := by
  simp [parseCsvLineAux]

theorem pa_q_true_nil (cur : Str) : parseCsvLineAux ['"'] cur true = [cur] := by
  simp [parseCsvLineAux]

theorem pa_q_true_ne (c : Char) (t : List Char) (cur : Str) (h : c ≠ '"') :
    parseCsvLineAux ('"' :: c :: t) cur true = parseCsvLineAux (c :: t) cur false := by
  simp [parseCsvLineAux, h]

theorem pa_q_false (rest : List Char) (cur : Str) :
    parseCsvLineAux ('"' :: rest) cur false = parseCsvLineAux rest cur true := by
  simp [parseCsvLineAux]

theorem pa_comma_false (rest : List Char) (cur : Str) :
    parseCsvLineAux (',' :: rest) cur false = cur :: parseCsvLineAux rest [] false := by
  simp [parseCsvLineAux]

/-- Characters of a cell that needs no quoting are neither commas nor
quotes. -/
theorem hasSpecial_false_chars (s : Str) (h : hasSpecial s = false) :
    ∀ c ∈ s, c ≠ ',' ∧ c ≠ '"' := by
  intro c hc
  simp only [hasSpecial, List.any_eq_false] at h
  have := h c hc
  simp only [Bool.or_eq_true, beq_iff_eq] at this
  push_neg at this
  tauto

/-- Parsing a run of ordinary characters outside quotes appends them to the
current field. -/
theorem parseAux_verbatim (s : Str) (hs : ∀ c ∈ s, c ≠ ',' ∧ c ≠ '"') :
    ∀ rest cur, parseCsvLineAux (s ++ rest) cur false = parseCsvLineAux rest (cur ++ s) false := by
  induction s with
  | nil => intro rest cur; simp
  | cons c t ih =>
    intro rest cur
    obtain ⟨hc1, hc2⟩ := hs c (List.mem_cons_self c t)
    have ht : ∀ x ∈ t, x ≠ ',' ∧ x ≠ '"' := fun x hx => hs x (List.mem_cons_of_mem c hx)
    have step : parseCsvLineAux (c :: (t ++ rest)) cur false
        = parseCsvLineAux (t ++ rest) (cur ++ [c]) false := by
      simp [parseCsvLineAux, hc1, hc2]
    simp only [List.cons_append, step, ih ht rest (cur ++ [c]), List.append_assoc,
      List.singleton_append, List.nil_append]

/-- Parsing doubled-quote content inside quotes appends the original content
to the current field. -/
theorem parseAux_quoted (s : Str) :
    ∀ rest cur, parseCsvLineAux (doubleQuotes s ++ rest) cur true
      = parseCsvLineAux rest (cur ++ s) true := by
  induction s with
  | nil => intro rest cur; simp [doubleQuotes]
  | cons c t ih =>
    intro rest cur
    by_cases hc : c = '"'
    · subst hc
      have hd : doubleQuotes ('"' :: t) = '"' :: '"' :: doubleQuotes t := by simp [doubleQuotes]
      rw [hd]
      simp only [List.cons_append]
      rw [pa_qq, ih rest (cur ++ ['"'])]
      simp
    · have hd : doubleQuotes (c :: t) = c :: doubleQuotes t := by simp [doubleQuotes, hc]
      rw [hd]
      simp only [List.cons_append]
      have step : parseCsvLineAux (c :: (doubleQuotes t ++ rest)) cur true
          = parseCsvLineAux (doubleQuotes t ++ rest) (cur ++ [c]) true := by
        simp [parseCsvLineAux, hc]
      rw [step, ih rest (cur ++ [c])]
      simp

/-- Parsing one escaped cell followed by the end of the line or by a comma
recovers the cell's string content. -/
theorem parseAux_escape (cell : Cell) (rest : List Char) (cur : Str)
    (h : rest = [] ∨ ∃ r, rest = ',' :: r) :
    parseCsvLineAux (escapeCSVCell cell ++ rest) cur false
      = parseCsvLineAux rest (cur ++ cellStr cell) false := by
  unfold escapeCSVCell
  by_cases hsp : hasSpecial (cellStr cell) = true
  · simp only [hsp, if_true]
    have assoc : ('"' :: (doubleQuotes (cellStr cell) ++ ['"'])) ++ rest
        = '"' :: (doubleQuotes (cellStr cell) ++ ('"' :: rest)) := by simp
    rw [assoc, pa_q_false, parseAux_quoted (cellStr cell) ('"' :: rest) cur]
    rcases h with h | ⟨r, h⟩
    · subst h
      rw [pa_q_true_nil, pa_nil]
    · subst h
      rw [pa_q_true_ne ',' r _ (by decide)]
  · have hsp' : hasSpecial (cellStr cell) = false := by
      cases hq : hasSpecial (cellStr cell) <;> simp_all
    simp only [hsp', if_false, Bool.false_eq_true]
    exact parseAux_verbatim (cellStr cell) (hasSpecial_false_chars _ hsp') rest cur

/-- Parsing the comma join of the escaped cells of a non-empty row yields the
cells' string contents, field by field. -/
theorem parse_fields (cs : List Cell) (c : Cell) (cur : Str) :
    parseCsvLineAux (joinComma ((c :: cs).map escapeCSVCell)) cur false
      = (cur ++ cellStr c) :: cs.map cellStr := by
  induction cs generalizing c cur with
  | nil =>
    have hj : joinComma [escapeCSVCell c] = escapeCSVCell c ++ [] := by simp [joinComma]
    simp only [List.map_cons, List.map_nil, hj]
    rw [parseAux_escape c [] cur (Or.inl rfl), pa_nil]
  | cons c2 cs2 ih =>
    have hj : joinComma ((c :: c2 :: cs2).map escapeCSVCell)
        = escapeCSVCell c ++ (',' :: joinComma ((c2 :: cs2).map escapeCSVCell)) := by
      simp [joinComma]
    rw [hj, parseAux_escape c _ cur (Or.inr ⟨_, rfl⟩), pa_comma_false, ih c2 []]
    simp

/-- C7 (counterexample). The claim quantifies over every row of cell values,
but the zero-cell row does not round-trip: it serializes to the empty line,
which the parser reads back as one empty field, not as zero fields. -/
theorem csv_roundtrip_empty_row_cex :
    serializeRow [] = [] ∧ parseCsvLine (serializeRow []) = [[]] ∧
    ([] : List Cell).map cellStr = [] ∧ ([[]] : List Str) ≠ [] := by
  refine ⟨rfl, rfl, rfl, by decide⟩

/-- C7 (amended). For every row with at least one cell, serializing each cell
with the quoting rule (quote-wrap with internal quotes doubled iff the cell
contains a comma, a double quote or a newline; an absent cell becomes the
empty string), joining with commas, and re-parsing with
`StreamingFileReader.parseCsvLine` yields the original cell string values —
including rows whose cells contain a comma, a quote, and a newline. -/
theorem csv_roundtrip_nonempty (row : List Cell) (h : row ≠ []) :
    parseCsvLine (serializeRow row) = row.map cellStr := by
  cases row with
  | nil => exact absurd rfl h
  | cons c cs =>
    unfold parseCsvLine serializeRow
    rw [parse_fields cs c []]
    simp

/-- C7 (witness): the round trip at a concrete row containing a comma cell, a
quoted cell, a newline cell and an absent cell. -/
theorem csv_roundtrip_nonempty_witness :
    rtRow ≠ [] ∧ parseCsvLine (serializeRow rtRow) = rtRow.map cellStr :=
  ⟨by decide, csv_roundtrip_nonempty rtRow (by decide)⟩

/-! ## Streaming reader lemmas -/

/-- The final `foundRows` counter equals the initial counter plus the number
of collected rows. -/
theorem readCsvAux_found (sR pS nC : Nat) :
    ∀ (ls : List Str) (cr found : Nat),
      (readCsvAux sR pS nC ls cr found).2 = found + (readCsvAux sR pS nC ls cr found).1.length := by
  intro ls
  induction ls with
  | nil => intro cr found; simp [readCsvAux]
  | cons l rest ih =>
    intro cr found
    by_cases h0 : cr = 0
    · subst h0
      simpa [readCsvAux] using ih 1 found
    · by_cases hIn : sR ≤ cr - 1 ∧ found < pS
      · by_cases hStop : pS ≤ found + 1
        · simp [readCsvAux, h0, hIn, hStop]
        · have hih := ih (cr + 1) (found + 1)
          simp [readCsvAux, h0, hIn, hStop]
          omega
      · by_cases hClose : pS ≤ found
        · simp [readCsvAux, h0, hIn, hClose]
        · have hih := ih (cr + 1) found
          simp [readCsvAux, h0, hIn, hClose]
          omega

/-- Characterization of the CSV page loop: starting at line counter `cr ≥ 1`
with `found ≤ pageSize` rows already found, the collected row data are the
parses of the next `pageSize − found` lines at data offset `≥ startRow`. -/
theorem readCsvAux_rows (sR pS nC : Nat) :
    ∀ (ls : List Str) (cr found : Nat), 1 ≤ cr → found ≤ pS →
      (readCsvAux sR pS nC ls cr found).1.map PageRow.data
        = ((ls.drop (sR + 1 - cr)).take (pS - found)).map
            (fun l => rowDataFrom nC (parseCsvLine l)) := by
  intro ls
  induction ls with
  | nil => intro cr found _ _; simp [readCsvAux]
  | cons l rest ih =>
    intro cr found hcr hfound
    have h0 : ¬ (cr = 0) := by omega
    by_cases hIn : sR ≤ cr - 1 ∧ found < pS
    · have hdrop : sR + 1 - cr = 0 := by omega
      by_cases hStop : pS ≤ found + 1
      · have htake : pS - found = 1 := by omega
        simp [readCsvAux, h0, hIn, hStop, hdrop, htake]
      · have htake : pS - found = (pS - (found + 1)) + 1 := by omega
        have hdrop2 : sR + 1 - (cr + 1) = 0 := by omega
        have hih := ih (cr + 1) (found + 1) (by omega) (by omega)
        rw [hdrop2] at hih
        simp [readCsvAux, h0, hIn, hStop, hdrop, htake, hih]
    · by_cases hClose : pS ≤ found
      · have htake : pS - found = 0 := by omega
        simp [readCsvAux, h0, hIn, hClose, htake]
      · have hdrop : sR + 1 - cr = (sR - cr) + 1 := by omega
        have hdrop2 : sR + 1 - (cr + 1) = sR - cr := by omega
        have hih := ih (cr + 1) found (by omega) (by omega)
        rw [hdrop2] at hih
        simp [readCsvAux, h0, hIn, hClose, hdrop, hih]

/-- The rows of a CSV page are exactly the parses of the in-range data
lines: all lines after the header, from `startRow`, up to `pageSize` many. -/
theorem readCsvPage_rows_eq (lines : List Str) (nC tR sR pS : Nat) :
    (readCsvPage lines nC tR sR pS).rows.map PageRow.data
      = (((lines.drop 1).drop sR).take pS).map (fun l => rowDataFrom nC (parseCsvLine l)) := by
  cases lines with
  | nil => simp [readCsvPage, readCsvAux]
  | cons h rest =>
    have hskip : readCsvAux sR pS nC (h :: rest) 0 0 = readCsvAux sR pS nC rest 1 0 := by
      simp [readCsvAux]
    have := readCsvAux_rows sR pS nC rest 1 0 (by omega) (by omega)
    simp only [readCsvPage, hskip, this]
    simp

/-- A CSV page's `hasMore` flag, unfolded. -/
theorem readCsvPage_hasMore (lines : List Str) (nC tR sR pS : Nat) :
    (readCsvPage lines nC tR sR pS).hasMore = true
      ↔ sR + (readCsvPage lines nC tR sR pS).rows.length < tR := by
  have hf := readCsvAux_found sR pS nC lines 0 0
  simp only [readCsvPage, decide_eq_true_eq]
  rw [hf]
  simp

/-- An Excel page's row count is the size of the clamped range. -/
theorem readExcelPage_length (grid : List (List Cell)) (off : Nat) (cols : List Nat)
    (tR sR pS : Nat) :
    (readExcelPage grid off cols tR sR pS).rows.length = min (sR + pS) tR - sR := by
  simp [readExcelPage]

/-- C3. For every reader session state and every `readPage` call, the
returned `hasMore` flag equals `(startRow + returned row count) < totalRows`
— on the CSV path and on the spreadsheet path — and on a 50-data-row CSV
with a 3-column header, `readPage(0, 20)` returns rows 1–20 with `hasMore`
true while `readPage(40, 20)` returns the 10 rows 41–50 with `hasMore`
false. -/
theorem readPage_hasMore_spec :
    (∀ (lines : List Str) (nC tR sR pS : Nat),
      (readCsvPage lines nC tR sR pS).hasMore = true
        ↔ sR + (readCsvPage lines nC tR sR pS).rows.length < tR) ∧
    (∀ (grid : List (List Cell)) (off : Nat) (cols : List Nat) (tR sR pS : Nat),
      (readExcelPage grid off cols tR sR pS).hasMore = true
        ↔ sR + (readExcelPage grid off cols tR sR pS).rows.length < tR) ∧
    analyzeCsvTotalRows csvFile50 = 50 ∧
    (readCsvPage csvFile50 3 50 0 20).rows.length = 20 ∧
    (readCsvPage csvFile50 3 50 0 20).hasMore = true ∧
    (readCsvPage csvFile50 3 50 0 20).rows.map PageRow.rowNumber = List.range' 1 20 ∧
    (readCsvPage csvFile50 3 50 40 20).rows.length = 10 ∧
    (readCsvPage csvFile50 3 50 40 20).hasMore = false ∧
    (readCsvPage csvFile50 3 50 40 20).rows.map PageRow.rowNumber = List.range' 41 10 := by
  refine ⟨readCsvPage_hasMore, ?_, by decide, by decide, by decide, by decide,
    by decide, by decide, by decide⟩
  intro grid off cols tR sR pS
  have hlen := readExcelPage_length grid off cols tR sR pS
  rw [hlen]
  simp only [readExcelPage, decide_eq_true_eq]
  omega

/-- C9 (counterexample). A data line with an unbalanced quote — the claim's
own example of a malformed line — is not skipped: the page read over a file
whose single data line is `"a,b` returns one row, holding that line's
lenient parse, where the claim predicts zero rows. -/
theorem csv_malformed_included_cex :
    (readCsvPage malformedFile 2 (analyzeCsvTotalRows malformedFile) 0 10).rows.length = 1 ∧
    (readCsvPage malformedFile 2 (analyzeCsvTotalRows malformedFile) 0 10).rows.map PageRow.data
      = [[['a', ',', 'b'], []]] := by
  refine ⟨by decide, by decide⟩

/-- C9 (amended). No data line is ever skipped: `parseCsvLine` is total and
tolerates unbalanced quotes, and every line in the requested range —
malformed or not — is parsed and included in the returned rows, so a page
read is never aborted by a malformed line. Concretely, the unbalanced line
`"a,b` parses to the single field `a,b`. -/
theorem csv_page_never_skips :
    (∀ (lines : List Str) (nC tR sR pS : Nat),
      (readCsvPage lines nC tR sR pS).rows.map PageRow.data
        = (((lines.drop 1).drop sR).take pS).map (fun l => rowDataFrom nC (parseCsvLine l))) ∧
    parseCsvLine malformedLine = [['a', ',', 'b']] :=
  ⟨fun lines nC tR sR pS => readCsvPage_rows_eq lines nC tR sR pS, by decide⟩

/-- C10. Both page readers return at most `pageSize` rows, and a call with
`startRow ≥ totalRows` succeeds with an empty row list and `hasMore = false`
(for CSV, against the session row count computed at initialization). -/
theorem readPage_limits :
    (∀ (lines : List Str) (nC tR sR pS : Nat),
      (readCsvPage lines nC tR sR pS).rows.length ≤ pS) ∧
    (∀ (lines : List Str) (nC sR pS : Nat), analyzeCsvTotalRows lines ≤ sR →
      (readCsvPage lines nC (analyzeCsvTotalRows lines) sR pS).rows = [] ∧
      (readCsvPage lines nC (analyzeCsvTotalRows lines) sR pS).hasMore = false) ∧
    (∀ (grid : List (List Cell)) (off : Nat) (cols : List Nat) (tR sR pS : Nat),
      (readExcelPage grid off cols tR sR pS).rows.length ≤ pS) ∧
    (∀ (grid : List (List Cell)) (off : Nat) (cols : List Nat) (tR sR pS : Nat), tR ≤ sR →
      (readExcelPage grid off cols tR sR pS).rows = [] ∧
      (readExcelPage grid off cols tR sR pS).hasMore = false) := by
  refine ⟨?_, ?_, ?_, ?_⟩
  · intro lines nC tR sR pS
    have h := readCsvPage_rows_eq lines nC tR sR pS
    have hlen : (readCsvPage lines nC tR sR pS).rows.length
        = ((((lines.drop 1).drop sR).take pS).map
            (fun l => rowDataFrom nC (parseCsvLine l))).length := by
      rw [← h, List.length_map]
    rw [hlen, List.length_map]
    exact le_trans (List.length_take_le pS _) (le_refl pS)
  · intro lines nC sR pS hbeyond
    have h := readCsvPage_rows_eq lines nC (analyzeCsvTotalRows lines) sR pS
    have hnil : (lines.drop 1).drop sR = [] := by
      apply List.drop_eq_nil_of_le
      simp only [List.length_drop]
      have : lines.length - 1 = analyzeCsvTotalRows lines := rfl
      omega
    rw [hnil] at h
    simp only [List.take_nil, List.map_nil, List.map_eq_nil_iff] at h
    refine ⟨h, ?_⟩
    have hf := readCsvAux_found sR pS nC lines 0 0
    have hrows : (readCsvAux sR pS nC lines 0 0).1 = [] := h
    simp only [readCsvPage, hrows, List.length_nil, Nat.add_zero] at hf ⊢
    rw [hf]
    simp only [List.length_nil, Nat.add_zero, decide_eq_false_iff_not]
    omega
  · intro grid off cols tR sR pS
    rw [readExcelPage_length]
    omega
  · intro grid off cols tR sR pS hbeyond
    have hcount : min (sR + pS) tR - sR = 0 := by omega
    have hmin : min (sR + pS) tR = tR := by omega
    constructor
    · simp [readExcelPage, hcount]
    · simp only [readExcelPage, hmin, decide_eq_false_iff_not]
      omega

/-- C10 (witness): reading past the end of the 50-row CSV file and past the
end of a 2-data-row sheet both return no rows and `hasMore = false`. -/
theorem readPage_limits_witness :
    (analyzeCsvTotalRows csvFile50 ≤ 60 ∧
      ((readCsvPage csvFile50 3 (analyzeCsvTotalRows csvFile50) 60 20).rows = [] ∧
       (readCsvPage csvFile50 3 (analyzeCsvTotalRows csvFile50) 60 20).hasMore = false)) ∧
    ((2 : Nat) ≤ 7 ∧
      ((readExcelPage wGrid 0 [0, 1] 2 7 10).rows = [] ∧
       (readExcelPage wGrid 0 [0, 1] 2 7 10).hasMore = false)) :=
  ⟨⟨by decide, readPage_limits.2.1 csvFile50 3 60 20 (by decide)⟩,
   ⟨by decide, readPage_limits.2.2.2 wGrid 0 [0, 1] 2 7 10 (by decide)⟩⟩

/-! ## Writer lemmas -/

theorem splitAux_sum (p : OutPath) (mr ms : Option Nat) :
    ∀ (srows : List Str) (idx : Nat) (cur : List Str) (sz : Nat),
      ((splitAux p mr ms srows idx cur sz).map FileRec.rows).sum = cur.length + srows.length := by
  intro srows
  induction srows with
  | nil =>
    intro idx cur sz
    by_cases hcur : cur = []
    · simp [splitAux, hcur]
    · simp [splitAux, hcur]
  | cons r rest ih =>
    intro idx cur sz
    by_cases hflush : cur ≠ [] ∧
        (wouldExceedRowsB mr cur.length || wouldExceedSizeB ms sz (r.length + 1)) = true
    · simp only [splitAux]
      rw [if_pos hflush]
      simp only [List.map_cons, List.sum_cons]
      rw [ih]
      simp
      omega
    · simp only [splitAux]
      rw [if_neg hflush]
      rw [ih]
      simp
      omega

theorem splitAux_ne_nil (p : OutPath) (mr ms : Option Nat) :
    ∀ (srows : List Str) (idx : Nat) (cur : List Str) (sz : Nat), cur ≠ [] →
      splitAux p mr ms srows idx cur sz ≠ [] := by
  intro srows
  induction srows with
  | nil =>
    intro idx cur sz hcur
    simp [splitAux, hcur]
  | cons r rest ih =>
    intro idx cur sz hcur
    by_cases hflush : cur ≠ [] ∧
        (wouldExceedRowsB mr cur.length || wouldExceedSizeB ms sz (r.length + 1)) = true
    · simp only [splitAux]
      rw [if_pos hflush]
      simp
    · simp only [splitAux]
      rw [if_neg hflush]
      exact ih idx (cur ++ [r]) (sz + (r.length + 1)) (by simp)

theorem flushCond_iff (R : Nat) (hR : 0 < R) (cur : List Str) (sz rsz : Nat) :
    (cur ≠ [] ∧ (wouldExceedRowsB (some R) cur.length || wouldExceedSizeB none sz rsz) = true)
      ↔ (cur ≠ [] ∧ R ≤ cur.length) := by
  have hne : R ≠ 0 := by omega
  simp [wouldExceedRowsB, wouldExceedSizeB, hne]

theorem splitAux_bound (p : OutPath) (R : Nat) (hR : 0 < R) :
    ∀ (srows : List Str) (idx : Nat) (cur : List Str) (sz : Nat), cur.length ≤ R →
      ∀ f ∈ splitAux p (some R) none srows idx cur sz, f.rows ≤ R := by
  intro srows
  induction srows with
  | nil =>
    intro idx cur sz hcur f hf
    by_cases hnil : cur = []
    · simp [splitAux, hnil] at hf
    · simp [splitAux, hnil] at hf
      rw [hf]
      exact hcur
  | cons r rest ih =>
    intro idx cur sz hcur f hf
    by_cases hflush : cur ≠ [] ∧
        (wouldExceedRowsB (some R) cur.length || wouldExceedSizeB none sz (r.length + 1)) = true
    · rw [show splitAux p (some R) none (r :: rest) idx cur sz
          = ⟨getChunkFilePath p idx, cur.length⟩ ::
              splitAux p (some R) none rest (idx + 1) [r] (r.length + 1) from by
        simp only [splitAux]; rw [if_pos hflush]] at hf
      rcases List.mem_cons.1 hf with hf | hf
      · rw [hf]
        exact hcur
      · exact ih (idx + 1) [r] (r.length + 1) (by simpa using hR) f hf
    · rw [show splitAux p (some R) none (r :: rest) idx cur sz
          = splitAux p (some R) none rest idx (cur ++ [r]) (sz + (r.length + 1)) from by
        simp only [splitAux]; rw [if_neg hflush]] at hf
      have hlen : (cur ++ [r]).length ≤ R := by
        rw [flushCond_iff R hR cur sz (r.length + 1)] at hflush
        simp only [List.length_append, List.length_singleton]
        by_cases hnil : cur = []
        · subst hnil; simpa using hR
        · have : ¬ R ≤ cur.length := by tauto
          omega
      exact ih idx (cur ++ [r]) (sz + (r.length + 1)) hlen f hf

theorem splitAux_dropLast (p : OutPath) (R : Nat) (hR : 0 < R) :
    ∀ (srows : List Str) (idx : Nat) (cur : List Str) (sz : Nat), cur.length ≤ R →
      ∀ f ∈ (splitAux p (some R) none srows idx cur sz).dropLast, f.rows = R := by
  intro srows
  induction srows with
  | nil =>
    intro idx cur sz hcur f hf
    by_cases hnil : cur = []
    · simp [splitAux, hnil] at hf
    · simp [splitAux, hnil] at hf
  | cons r rest ih =>
    intro idx cur sz hcur f hf
    by_cases hflush : cur ≠ [] ∧
        (wouldExceedRowsB (some R) cur.length || wouldExceedSizeB none sz (r.length + 1)) = true
    · rw [show splitAux p (some R) none (r :: rest) idx cur sz
          = ⟨getChunkFilePath p idx, cur.length⟩ ::
              splitAux p (some R) none rest (idx + 1) [r] (r.length + 1) from by
        simp only [splitAux]; rw [if_pos hflush]] at hf
      have hrec := splitAux_ne_nil p (some R) none rest (idx + 1) [r] (r.length + 1) (by simp)
      obtain ⟨b, l, hbl⟩ := List.exists_cons_of_ne_nil hrec
      rw [hbl, List.dropLast_cons₂] at hf
      rcases List.mem_cons.1 hf with hf | hf
      · have hge : R ≤ cur.length := by
          rw [flushCond_iff R hR cur sz (r.length + 1)] at hflush
          exact hflush.2
        rw [hf]
        show cur.length = R
        omega
      · have := ih (idx + 1) [r] (r.length + 1) (by simpa using hR) f
        rw [hbl] at this
        exact this hf
    · rw [show splitAux p (some R) none (r :: rest) idx cur sz
          = splitAux p (some R) none rest idx (cur ++ [r]) (sz + (r.length + 1)) from by
        simp only [splitAux]; rw [if_neg hflush]] at hf
      have hlen : (cur ++ [r]).length ≤ R := by
        rw [flushCond_iff R hR cur sz (r.length + 1)] at hflush
        simp only [List.length_append, List.length_singleton]
        by_cases hnil : cur = []
        · subst hnil; simpa using hR
        · have : ¬ R ≤ cur.length := by tauto
          omega
      exact ih idx (cur ++ [r]) (sz + (r.length + 1)) hlen f hf

theorem splitAux_count (p : OutPath) (R : Nat) (hR : 0 < R) :
    ∀ (srows : List Str) (idx : Nat) (cur : List Str) (sz : Nat), cur.length ≤ R →
      cur.length + srows.length ≤ (splitAux p (some R) none srows idx cur sz).length * R ∧
      (splitAux p (some R) none srows idx cur sz).length * R < cur.length + srows.length + R := by
  intro srows
  induction srows with
  | nil =>
    intro idx cur sz hcur
    by_cases hnil : cur = []
    · simp [splitAux, hnil]
      omega
    · have hpos : 0 < cur.length := List.length_pos.2 hnil
      simp [splitAux, hnil]
      omega
  | cons r rest ih =>
    intro idx cur sz hcur
    by_cases hflush : cur ≠ [] ∧
        (wouldExceedRowsB (some R) cur.length || wouldExceedSizeB none sz (r.length + 1)) = true
    · rw [show splitAux p (some R) none (r :: rest) idx cur sz
          = ⟨getChunkFilePath p idx, cur.length⟩ ::
              splitAux p (some R) none rest (idx + 1) [r] (r.length + 1) from by
        simp only [splitAux]; rw [if_pos hflush]]
      have hcurR : cur.length = R := by
        rw [flushCond_iff R hR cur sz (r.length + 1)] at hflush
        omega
      have hih := ih (idx + 1) [r] (r.length + 1) (by simpa using hR)
      simp only [List.length_cons, List.length_singleton, List.length_nil] at hih ⊢
      rw [Nat.succ_mul]
      omega
    · rw [show splitAux p (some R) none (r :: rest) idx cur sz
          = splitAux p (some R) none rest idx (cur ++ [r]) (sz + (r.length + 1)) from by
        simp only [splitAux]; rw [if_neg hflush]]
      have hlen : (cur ++ [r]).length ≤ R := by
        rw [flushCond_iff R hR cur sz (r.length + 1)] at hflush
        simp only [List.length_append, List.length_singleton]
        by_cases hnil : cur = []
        · subst hnil; simpa using hR
        · have : ¬ R ≤ cur.length := by tauto
          omega
      have hih := ih idx (cur ++ [r]) (sz + (r.length + 1)) hlen
      simp only [List.length_append, List.length_singleton, List.length_cons,
        List.length_nil] at hih ⊢
      omega

theorem splitAux_path (p : OutPath) (mr ms : Option Nat) :
    ∀ (srows : List Str) (idx : Nat) (cur : List Str) (sz : Nat), 1 ≤ idx →
      ∀ i, i < (splitAux p mr ms srows idx cur sz).length →
        ((splitAux p mr ms srows idx cur sz)[i]?).map FileRec.path
          = some (if idx = 1 ∧ i = 0 ∧ (splitAux p mr ms srows idx cur sz).length = 1 then p
                  else getChunkFilePath p (idx + i)) := by
  intro srows
  induction srows with
  | nil =>
    intro idx cur sz hidx i hlt
    by_cases hnil : cur = []
    · simp [splitAux, hnil] at hlt
    · have hlen : (splitAux p mr ms [] idx cur sz).length = 1 := by
        simp [splitAux, hnil]
      have hi : i = 0 := by omega
      subst hi
      rw [show splitAux p mr ms [] idx cur sz
          = [⟨chunkOrFinalPath p idx, cur.length⟩] from by
        simp only [splitAux]; rw [if_neg hnil]]
      by_cases h1 : idx = 1 <;> simp [chunkOrFinalPath, h1]
  | cons r rest ih =>
    intro idx cur sz hidx i hlt
    by_cases hflush : cur ≠ [] ∧
        (wouldExceedRowsB mr cur.length || wouldExceedSizeB ms sz (r.length + 1)) = true
    · have heq : splitAux p mr ms (r :: rest) idx cur sz
          = ⟨getChunkFilePath p idx, cur.length⟩ ::
              splitAux p mr ms rest (idx + 1) [r] (r.length + 1) := by
        simp only [splitAux]; rw [if_pos hflush]
      have hrec := splitAux_ne_nil p mr ms rest (idx + 1) [r] (r.length + 1) (by simp)
      rw [heq] at hlt ⊢
      cases i with
      | zero =>
        simp [hrec]
      | succ j =>
        have hjlt : j < (splitAux p mr ms rest (idx + 1) [r] (r.length + 1)).length := by
          simpa using hlt
        have hih := ih (idx + 1) [r] (r.length + 1) (by omega) j hjlt
        have hfalse : ¬ (idx + 1 = 1 ∧ j = 0 ∧
            (splitAux p mr ms rest (idx + 1) [r] (r.length + 1)).length = 1) := by
          intro hc
          omega
        rw [if_neg hfalse] at hih
        simp only [List.getElem?_cons_succ]
        rw [hih]
        have harg : idx + 1 + j = idx + (j + 1) := by omega
        rw [harg]
        simp
    · have heq : splitAux p mr ms (r :: rest) idx cur sz
          = splitAux p mr ms rest idx (cur ++ [r]) (sz + (r.length + 1)) := by
        simp only [splitAux]; rw [if_neg hflush]
      rw [heq] at hlt ⊢
      exact ih idx (cur ++ [r]) (sz + (r.length + 1)) hidx i hlt

/-- A count sandwiched between `N ≤ L·R` and `L·R < N + R` is the ceiling
`⌈N/R⌉`. -/
theorem ceil_div_of_bounds (N R L : Nat) (hR : 0 < R)
    (hlo : N ≤ L * R) (hhi : L * R < N + R) : L = (N + R - 1) / R := by
  have h1 : L ≤ (N + R - 1) / R := (Nat.le_div_iff_mul_le hR).2 (by omega)
  have h2 : (N + R - 1) / R < L + 1 := by
    rw [Nat.div_lt_iff_lt_mul hR]
    have hexp : (L + 1) * R = L * R + R := by ring
    omega
  omega

/-- C1. With a max row limit `R > 0` and no size limit, the splitting writer
emits exactly `⌈N/R⌉` files for `N` input rows; the recorded per-file row
counts sum to `N`; every file holds at most `R` rows; and every file except
the last holds exactly `R` rows (only the final file may be shorter). -/
theorem writer_split_row_limit (rows : List (List Cell)) (p : OutPath) (R : Nat) (hR : 0 < R) :
    (writeCSVWithSplitting rows p (some R) none).files.length = (rows.length + R - 1) / R ∧
    ((writeCSVWithSplitting rows p (some R) none).files.map FileRec.rows).sum = rows.length ∧
    (∀ f ∈ (writeCSVWithSplitting rows p (some R) none).files, f.rows ≤ R) ∧
    (∀ f ∈ (writeCSVWithSplitting rows p (some R) none).files.dropLast, f.rows = R) := by
  have hmap : (rows.map serializeRow).length = rows.length := List.length_map _ _
  refine ⟨?_, ?_, ?_, ?_⟩
  · have hc := splitAux_count p R hR (rows.map serializeRow) 1 [] 0 (by simp)
    rw [hmap] at hc
    simp only [List.length_nil, Nat.zero_add] at hc
    simpa [writeCSVWithSplitting, normSizeBytes] using
      ceil_div_of_bounds rows.length R _ hR hc.1 hc.2
  · have hs := splitAux_sum p (some R) none (rows.map serializeRow) 1 [] 0
    rw [hmap] at hs
    simpa [writeCSVWithSplitting, normSizeBytes] using hs
  · intro f hf
    simp only [writeCSVWithSplitting, normSizeBytes] at hf
    exact splitAux_bound p R hR (rows.map serializeRow) 1 [] 0 (by simp) f hf
  · intro f hf
    simp only [writeCSVWithSplitting, normSizeBytes] at hf
    exact splitAux_dropLast p R hR (rows.map serializeRow) 1 [] 0 (by simp) f hf

/-- C1 (witness): five rows with row limit 2 give `⌈5/2⌉ = 3` files of sizes
2, 2, 1. -/
theorem writer_split_row_limit_witness :
    0 < 2 ∧
    ((writeCSVWithSplitting wRows5 wPath (some 2) none).files.length
        = (wRows5.length + 2 - 1) / 2 ∧
      ((writeCSVWithSplitting wRows5 wPath (some 2) none).files.map FileRec.rows).sum
        = wRows5.length ∧
      (∀ f ∈ (writeCSVWithSplitting wRows5 wPath (some 2) none).files, f.rows ≤ 2) ∧
      (∀ f ∈ (writeCSVWithSplitting wRows5 wPath (some 2) none).files.dropLast, f.rows = 2)) :=
  ⟨by decide, writer_split_row_limit wRows5 wPath 2 (by decide)⟩

/-- C4 (counterexample). Splitting two rows with row limit 1 produces files
`…_part1.csv` and `…_part2.csv`: the first file of a multi-file split carries
the `_part1` suffix, not the plain `{baseName}_{sheetName}.csv` name the
claim requires. -/
theorem writer_first_file_part1_cex :
    ((writeCSVWithSplitting wRows2 wPath (some 1) none).files.map FileRec.path)
      = [getChunkFilePath wPath 1, getChunkFilePath wPath 2] ∧
    getChunkFilePath wPath 1 ≠ wPath := by
  refine ⟨by decide, by decide⟩

/-- C4 (amended). When the writer's output is a single file it is the plain
`{baseName}_{sheetName}.<ext>` path; when its output is split across `K ≥ 2`
files, they are named `_part1 … _partK` consecutively — including a `_part1`
suffix on the first file. -/
theorem writer_chunk_naming (rows : List (List Cell)) (p : OutPath) (mr mf : Option Nat) :
    ((writeCSVWithSplitting rows p mr mf).files.length = 1 →
      ∀ i, i < (writeCSVWithSplitting rows p mr mf).files.length →
        ((writeCSVWithSplitting rows p mr mf).files[i]?).map FileRec.path = some p) ∧
    (2 ≤ (writeCSVWithSplitting rows p mr mf).files.length →
      ∀ i, i < (writeCSVWithSplitting rows p mr mf).files.length →
        ((writeCSVWithSplitting rows p mr mf).files[i]?).map FileRec.path
          = some (getChunkFilePath p (i + 1))) := by
  constructor
  · intro hlen i hlt
    have hp := splitAux_path p mr (normSizeBytes mf) (rows.map serializeRow) 1 [] 0
      (le_refl 1) i (by simpa [writeCSVWithSplitting] using hlt)
    have hi0 : i = 0 := by omega
    rw [if_pos ⟨rfl, hi0, by simpa [writeCSVWithSplitting] using hlen⟩] at hp
    simpa [writeCSVWithSplitting] using hp
  · intro hlen i hlt
    have hp := splitAux_path p mr (normSizeBytes mf) (rows.map serializeRow) 1 [] 0
      (le_refl 1) i (by simpa [writeCSVWithSplitting] using hlt)
    have hlen2 : 2 ≤ (splitAux p mr (normSizeBytes mf) (rows.map serializeRow) 1 [] 0).length := by
      simpa [writeCSVWithSplitting] using hlen
    rw [if_neg (by
      rintro ⟨-, -, hc⟩
      omega)] at hp
    rw [Nat.add_comm 1 i] at hp
    simpa [writeCSVWithSplitting] using hp

/-- C4 (witness): three rows with row limit 1 split into three files, named
`_part1`, `_part2`, `_part3`. -/
theorem writer_chunk_naming_witness :
    2 ≤ (writeCSVWithSplitting wRows3 wPath (some 1) none).files.length ∧
    (∀ i, i < (writeCSVWithSplitting wRows3 wPath (some 1) none).files.length →
      ((writeCSVWithSplitting wRows3 wPath (some 1) none).files[i]?).map FileRec.path
        = some (getChunkFilePath wPath (i + 1))) :=
  ⟨by decide, (writer_chunk_naming wRows3 wPath (some 1) none).2 (by decide)⟩

/-! ## Empty-row filtering and per-worksheet conversion -/

/-- C5 (counterexample). A row whose only cell is a single space is entirely
empty after trimming, yet the conversion filter keeps it — the filter tests
`cell !== null && cell !== undefined && cell !== ''` without trimming — so
the row reaches the Writer and is counted in the output. -/
theorem conv_whitespace_row_kept_cex :
    rowHasContent spaceRow = true ∧
    convertWithXLSX [spaceRow] wPath none none
      = Except.ok ⟨1, [⟨wPath, 1⟩]⟩ := by
  refine ⟨by decide, by rfl⟩

/-- C5 (amended). Before rows reach the Writer, every row whose cells are all
null, undefined, or the empty string — with no trimming — is dropped; the
XLSX conversion path raises a per-worksheet error exactly when the sheet has
no rows or all rows are dropped, and counts only the surviving rows; but the
ExcelJS conversion path never raises that error after its initial row check:
on a sheet whose rows are all dropped it hands the empty list to the Writer,
yielding zero output files when a row limit is set. -/
theorem empty_row_filtering :
    (∀ (data : List (List Cell)) (p : OutPath) (mr mf : Option Nat),
      (∃ e, convertWithXLSX data p mr mf = Except.error e)
        ↔ (data = [] ∨ data.filter rowHasContent = [])) ∧
    (∀ (data : List (List Cell)) (p : OutPath) (mr mf : Option Nat) (r : ConvResult),
      convertWithXLSX data p mr mf = Except.ok r →
        r.totalRows = (data.filter rowHasContent).length) ∧
    (∀ (rows : List (List Cell)) (p : OutPath) (mr mf : Option Nat),
      rows ≠ [] → ∃ r, convertWithExcelJS rows p mr mf = Except.ok r) ∧
    convertWithExcelJS [blankRow] wPath (some 1) none = Except.ok ⟨0, []⟩ := by
  refine ⟨?_, ?_, ?_, by rfl⟩
  · intro data p mr mf
    constructor
    · rintro ⟨e, he⟩
      by_cases h1 : data.length = 0
      · exact Or.inl (List.length_eq_zero.1 h1)
      · by_cases h2 : (data.filter rowHasContent).length = 0
        · exact Or.inr (List.length_eq_zero.1 h2)
        · simp only [convertWithXLSX, h1, if_false, h2] at he
          split_ifs at he
    · rintro (h | h)
      · exact ⟨"No data found in worksheet", by simp [convertWithXLSX, h]⟩
      · by_cases h1 : data.length = 0
        · exact ⟨"No data found in worksheet", by simp [convertWithXLSX, h1]⟩
        · exact ⟨"No non-empty rows found", by simp [convertWithXLSX, h1, h]⟩
  · intro data p mr mf r h
    by_cases h1 : data.length = 0
    · simp [convertWithXLSX, h1] at h
    · by_cases h2 : (data.filter rowHasContent).length = 0
      · simp [convertWithXLSX, h1, h2] at h
      · by_cases h3 : (truthy mr || truthy mf) = true
        · have h4 : writeCSVWithSplitting (data.filter rowHasContent) p mr mf = r := by
            apply Except.ok.inj
            rw [← h]
            simp [convertWithXLSX, h1, h2, h3]
          rw [← h4]
          rfl
        · have h4 : writeCSVSingle (data.filter rowHasContent) p = r := by
            apply Except.ok.inj
            rw [← h]
            simp [convertWithXLSX, h1, h2, h3]
          rw [← h4]
          rfl
  · intro rows p mr mf hne
    have h1 : ¬ rows.length = 0 := by simpa [List.length_eq_zero] using hne
    simp only [convertWithExcelJS, h1, if_false]
    split_ifs with h2
    · exact ⟨_, rfl⟩
    · exact ⟨_, rfl⟩

/-- C5 (witness): a non-empty sheet with one whitespace row goes through the
ExcelJS path without an error. -/
theorem empty_row_filtering_witness :
    ([spaceRow] ≠ ([] : List (List Cell))) ∧
    (∃ r, convertWithExcelJS [spaceRow] wPath none none = Except.ok r) :=
  ⟨by decide, empty_row_filtering.2.2.1 [spaceRow] wPath none none (by decide)⟩

/-! ## Complexity thresholds -/

/-- C8 (counterexample). The claim puts 1,000 estimated rows in class
`medium` (`≥ 1,000` and `< 10,000`) and 10,000 in class `large`
(`≥ 10,000`), but the code's strict comparisons classify 1,000 as `small`
and 10,000 as `medium`. -/
theorem complexity_thresholds_cex :
    complexity 1000 = Complexity.small ∧ complexity 10000 = Complexity.medium ∧
    Complexity.small ≠ Complexity.medium ∧ Complexity.medium ≠ Complexity.large := by
  refine ⟨by decide, by decide, by decide, by decide⟩

/-- C8 (amended). The complexity class is `small` exactly when the estimated
row count is at most 1,000, `medium` exactly when it is greater than 1,000
and at most 10,000, and `large` exactly when it is greater than 10,000 (the
thresholds are exclusive: `rows > 10000 ? large : rows > 1000 ? medium :
small`). -/
theorem complexity_thresholds (n : Nat) :
    (complexity n = Complexity.small ↔ n ≤ 1000) ∧
    (complexity n = Complexity.medium ↔ 1000 < n ∧ n ≤ 10000) ∧
    (complexity n = Complexity.large ↔ 10000 < n) := by
  unfold complexity
  split_ifs with h1 h2 <;> refine ⟨?_, ?_, ?_⟩ <;> simp <;> omega

/-! ## Progress-event ordering of the analysis job -/

/-- Helper: `nonDecreasing` computes `List.Chain'` of `≤`. -/
theorem nonDecreasing_iff_chain (l : List Nat) :
    nonDecreasing l = true ↔ List.Chain' (· ≤ ·) l := by
  induction l with
  | nil => simp [nonDecreasing]
  | cons a rest ih =>
    cases rest with
    | nil => simp [nonDecreasing]
    | cons b t =>
      rw [show nonDecreasing (a :: b :: t) = (decide (a ≤ b) && nonDecreasing (b :: t)) from rfl,
        List.chain'_cons, ← ih]
      simp

/-- C6 (counterexample). The percent sequence emitted by a successful
analysis job is 0, 5, 10, 20, 30, 60, 80, 100, 85: `processWorksheets` ends
with 100 ("Worksheet analysis complete") and `analyzeWorksheets` then emits
85 ("Analyzing worksheet complexity..."), so it is not non-decreasing. -/
theorem analysis_progress_not_monotone_cex :
    ¬ List.Chain' (· ≤ ·) getWorksheetsJobTrace := by
  rw [← nonDecreasing_iff_chain]
  simp only [show nonDecreasing getWorksheetsJobTrace = false from rfl]
  simp

/-- C6 (amended). Within an analysis job the progress percents are
non-decreasing through the end of worksheet extraction (0, 5, 10, 20, 30,
60, 80, 100), but the complexity-analysis stage then emits a single final 85
after the 100 — the one violation of monotonicity. -/
theorem analysis_progress_dip :
    List.Chain' (· ≤ ·) (getWorksheetsJobTrace.take 8) ∧
    getWorksheetsJobTrace[7]? = some 100 ∧
    getWorksheetsJobTrace[8]? = some 85 ∧
    getWorksheetsJobTrace.length = 9 := by
  refine ⟨?_, by decide, by decide, by decide⟩
  rw [← nonDecreasing_iff_chain]
  rfl

/-! ## The convert-file handler -/

theorem handlerLoop_eq :
    ∀ (outcomes : List (Except String ConvResult)) (fs : List FileRec) (t : Nat)
      (es : List String),
      handlerLoop outcomes fs t es
        = (fs ++ okFiles outcomes, t + okTotal outcomes, es ++ errsOf outcomes) := by
  intro outcomes
  induction outcomes with
  | nil => intro fs t es; simp [handlerLoop, okFiles, okTotal, errsOf]
  | cons o rest ih =>
    intro fs t es
    cases o with
    | ok r =>
      simp [handlerLoop, okFiles, okTotal, errsOf, ih, List.append_assoc, Nat.add_assoc]
    | error e =>
      simp [handlerLoop, okFiles, okTotal, errsOf, ih, List.append_assoc]

theorem mem_okFiles_of_mem_okResults :
    ∀ (outcomes : List (Except String ConvResult)) (r : ConvResult),
      r ∈ okResults outcomes → ∀ x ∈ r.files, x ∈ okFiles outcomes := by
  intro outcomes
  induction outcomes with
  | nil => intro r hr; simp [okResults] at hr
  | cons o rest ih =>
    intro r hr x hx
    cases o with
    | ok q =>
      simp only [okResults, List.mem_cons] at hr
      simp only [okFiles, List.mem_append]
      rcases hr with hr | hr
      · subst hr
        exact Or.inl hx
      · exact Or.inr (ih r hr x hx)
    | error e =>
      simp only [okResults] at hr
      simp only [okFiles]
      exact ih r hr x hx

theorem ok_mem_okResults :
    ∀ (outcomes : List (Except String ConvResult)) (r : ConvResult),
      Except.ok r ∈ outcomes → r ∈ okResults outcomes := by
  intro outcomes
  induction outcomes with
  | nil => intro r hr; simp at hr
  | cons o rest ih =>
    intro r hr
    cases o with
    | ok q =>
      simp only [List.mem_cons] at hr
      simp only [okResults, List.mem_cons]
      rcases hr with hr | hr
      · exact Or.inl (Except.ok.inj hr.symm).symm
      · exact Or.inr (ih r hr)
    | error e =>
      simp only [List.mem_cons] at hr
      simp only [okResults]
      rcases hr with hr | hr
      · exact absurd hr (by simp)
      · exact ih r hr

theorem all_err_okFiles_nil :
    ∀ (outcomes : List (Except String ConvResult)),
      (∀ o ∈ outcomes, isErr o = true) → okFiles outcomes = [] := by
  intro outcomes
  induction outcomes with
  | nil => intro _; rfl
  | cons o rest ih =>
    intro hall
    cases o with
    | ok r =>
      have := hall (Except.ok r) (List.mem_cons_self _ _)
      simp [isErr] at this
    | error e =>
      simp only [okFiles]
      exact ih (fun o ho => hall o (List.mem_cons_of_mem _ ho))

theorem all_err_errsOf_ne :
    ∀ (outcomes : List (Except String ConvResult)), outcomes ≠ [] →
      (∀ o ∈ outcomes, isErr o = true) → errsOf outcomes ≠ [] := by
  intro outcomes hne hall
  cases outcomes with
  | nil => exact absurd rfl hne
  | cons o rest =>
    cases o with
    | ok r =>
      have := hall (Except.ok r) (List.mem_cons_self _ _)
      simp [isErr] at this
    | error e => simp [errsOf]

/-- C2 (amended). Each worksheet outcome is processed to the end — failures
are appended to the errors list and never stop the loop. The overall result
is reported as failed exactly when some worksheet failed and no output file
at all was accumulated; under the extra premise that every successful
worksheet contributed at least one file (true of the XLSX write paths, but
not of the ExcelJS path on an all-empty sheet with a row limit), this is
equivalent to "every worksheet failed". Whenever some worksheet failed but
output files exist, the response is `success: true` with the non-empty
errors list. -/
theorem convert_file_error_policy (outcomes : List (Except String ConvResult)) :
    ((convertFileHandler outcomes).success = false
        ↔ (errsOf outcomes ≠ [] ∧ okFiles outcomes = [])) ∧
    ((convertFileHandler outcomes).success = true →
      (convertFileHandler outcomes).errors
        = (if errsOf outcomes = [] then none else some (errsOf outcomes))) ∧
    ((∀ r ∈ okResults outcomes, r.files ≠ []) →
      ((convertFileHandler outcomes).success = false
        ↔ (outcomes ≠ [] ∧ ∀ o ∈ outcomes, isErr o = true))) ∧
    ((errsOf outcomes ≠ [] ∧ okFiles outcomes ≠ []) →
      ((convertFileHandler outcomes).success = true ∧
       (convertFileHandler outcomes).errors = some (errsOf outcomes))) := by
  have hmain : convertFileHandler outcomes
      = if errsOf outcomes ≠ [] ∧ okFiles outcomes = [] then
          { success := false, totalRows := 0, files := [], errors := none,
            error := some "All worksheets failed to convert" }
        else
          { success := true, totalRows := okTotal outcomes, files := okFiles outcomes,
            errors := if errsOf outcomes = [] then none else some (errsOf outcomes),
            error := none } := by
    rw [show convertFileHandler outcomes
        = (let acc := handlerLoop outcomes [] 0 []
           if acc.2.2 ≠ [] ∧ acc.1 = [] then
             { success := false, totalRows := 0, files := [], errors := none,
               error := some "All worksheets failed to convert" }
           else
             { success := true, totalRows := acc.2.1, files := acc.1,
               errors := if acc.2.2 = [] then none else some acc.2.2, error := none })
        from rfl]
    rw [handlerLoop_eq outcomes [] 0 []]
    simp
  by_cases hcond : errsOf outcomes ≠ [] ∧ okFiles outcomes = []
  · rw [hmain, if_pos hcond]
    refine ⟨by simpa using hcond, fun h => absurd h (by simp), ?_, ?_⟩
    · intro hok
      constructor
      · intro _
        constructor
        · intro hnil
          subst hnil
          exact hcond.1 rfl
        · intro o ho
          cases o with
          | error e => rfl
          | ok r =>
            have hrmem := ok_mem_okResults outcomes r ho
            have hfne := hok r hrmem
            obtain ⟨x, hx⟩ := List.exists_mem_of_ne_nil _ hfne
            have := mem_okFiles_of_mem_okResults outcomes r hrmem x hx
            rw [hcond.2] at this
            simp at this
      · intro _
        rfl
    · rintro ⟨-, hfne⟩
      exact absurd hcond.2 hfne
  · rw [hmain, if_neg hcond]
    refine ⟨by simpa using hcond, fun _ => rfl, ?_, ?_⟩
    · intro hok
      constructor
      · intro hc
        exact absurd hc (by simp)
      · rintro ⟨hne, hall⟩
        exact absurd ⟨all_err_errsOf_ne outcomes hne hall,
          all_err_okFiles_nil outcomes hall⟩ hcond
    · rintro ⟨herr, -⟩
      exact ⟨rfl, by simp [herr]⟩

/-- C2 (counterexample). An outcome list with one worksheet that succeeded
with zero output files (reachable through the ExcelJS conversion path with a
row limit on a worksheet whose rows are all empty after filtering, cf. the
C5 theorem) and one failed worksheet is reported with `success: false`,
although not every worksheet failed. -/
theorem convert_partial_failure_cex :
    (convertFileHandler cexOutcomes).success = false ∧
    okResults cexOutcomes ≠ [] := by
  refine ⟨by rfl, by decide⟩

/-- C2 (witness): one worksheet succeeded with a file, one failed — the
response has `success: true` and carries the single error message. -/
theorem convert_file_error_policy_witness :
    (errsOf witOutcomes ≠ [] ∧ okFiles witOutcomes ≠ []) ∧
    ((convertFileHandler witOutcomes).success = true ∧
     (convertFileHandler witOutcomes).errors = some (errsOf witOutcomes)) :=
  ⟨by decide, (convert_file_error_policy witOutcomes).2.2.2 (by decide)⟩
